import Mathlib

/-!
Shallow embedding of the ticker-based background-job primitive of the
kratos-layout repository (package `internal/job`: `TickerJob` with
`newTickerJob`, `Start`, `Stop`, and the `Registry` with `Servers`).

The Go source is `ticker_job.go`:

* `newTickerJob` builds a `TickerJob` value storing its parameters verbatim;
  no validation is performed.
* `Start(ctx)` optionally launches one immediate execution of `executeFn` in
  a separate goroutine (guarded by `wg.Add/Done`), arms a `time.Ticker` with
  `interval`, and loops on a three-way `select`: context cancellation
  (`wg.Wait()` then `return ctx.Err()`), the stop channel (`wg.Wait()` then
  `return nil`), and ticker elapse (runs `executeFn` synchronously in-line,
  wrapped in `wg.Add/Done`).
* `Stop` closes the stop channel under a `sync.Once` and returns `nil`.

We embed two aspects:

1. `TickerJob` construction and `Stop` as pure Lean functions. Channel close
   is modelled with an explicit "panic" (`Except.error`) on double close, as
   in the Go runtime, and a ghost counter recording how many times the close
   actually executed. `sync.Once` serialises the guarded closure, so the
   sequential iteration `stopCalls` is a faithful abstraction of any number
   of (even concurrent) `Stop` calls.

2. The `Start` loop together with the immediate-execution goroutine, the
   capacity-one ticker channel, the wait-group and the external `Stop` /
   context-cancel events as a labelled transition system `step` on states
   `St`, with executable deterministic steps per label so that concrete
   traces evaluate by `decide` / `rfl`. A trace (a `List Label`) is one
   interleaving of the concurrent system; `run` executes a trace.
-/

namespace KratosJob

/-- Go errors: `none` is the `nil` error. -/
abbrev GoError := Option String

/-- The value `ctx.Err()` reports after cancellation (Go value
`context.Canceled`). -/
def ctxCanceledErr : String := "context canceled"

/-! ## Construction (`newTickerJob`) and `Stop` -/

/-- State of the `stopCh` channel: whether it has been closed, plus a ghost
counter of how many times a `close` operation actually executed on it. -/
structure StopCh where
  closed : Bool
  closeCount : Nat
deriving DecidableEq, Repr

/-- A freshly made channel, `make(chan struct\x7b\x7d)`. -/
def StopCh.new : StopCh := { closed := false, closeCount := 0 }

/-- Go channel close, `close(ch)`: panics (modelled as `Except.error`) when
the channel is already closed; otherwise marks it closed and bumps the ghost
counter. -/
def StopCh.close (c : StopCh) : Except String StopCh :=
  if c.closed then .error "close of closed channel"
  else .ok { closed := true, closeCount := c.closeCount + 1 }

/-- The `TickerJob` struct of the source, specialised to the fields the
lifecycle contract reads. `α` is the type of the user-supplied action
(`executeFn`), stored as `Option α` so that a `nil` Go function is `none`.
The `log` field of the source is observability-only and has no effect on the
contract, so it is not carried. `interval` is a Go `time.Duration`, an
`int64` nanosecond count, embedded as `Int` (no arithmetic is performed on
it, so no wrap-around is involved). `stopOnce` is the `sync.Once` guard. -/
structure TickerJob (α : Type) where
  name : String
  interval : Int
  stopCh : StopCh
  stopOnceDone : Bool
  executeImmediate : Bool
  executeFn : Option α
deriving DecidableEq, Repr

/-- `newTickerJob(name, interval, logger, executeFn, executeImmediate)`:
stores the parameters verbatim, makes a fresh open stop channel, and performs
no validation whatsoever (any interval, any action including `nil`). -/
def newTickerJob (α : Type) (name : String) (interval : Int)
    (executeFn : Option α) (executeImmediate : Bool) : TickerJob α :=
  { name := name
    interval := interval
    stopCh := StopCh.new
    stopOnceDone := false
    executeImmediate := executeImmediate
    executeFn := executeFn }

/-- One call of `TickerJob.Stop`: `stopOnce.Do(func() \x7b close(stopCh) \x7d);
return nil`. The result pairs the updated job with the returned error; a Go
panic would surface as `Except.error`. -/
def TickerJob.Stop (j : TickerJob α) : Except String (TickerJob α × GoError) :=
  if j.stopOnceDone then .ok (j, none)
  else
    match j.stopCh.close with
    | .error e => .error e
    | .ok c => .ok ({ j with stopCh := c, stopOnceDone := true }, none)

/-- `n` successive `Stop` calls, collecting every returned error value.
`sync.Once` makes concurrent calls equivalent to some sequential order, so
this captures concurrent callers as well. -/
def stopCalls (α : Type) : Nat → TickerJob α →
    Except String (TickerJob α × List GoError)
  | 0, j => .ok (j, [])
  | n + 1, j =>
    match j.Stop with
    | .error e => .error e
    | .ok (j2, r) =>
      match stopCalls α n j2 with
      | .error e => .error e
      | .ok (j3, rs) => .ok (j3, r :: rs)

/-! ## The `Start` loop as a labelled transition system

Concurrent units of the source: the loop itself (one thread of control), the
optional immediate-execution goroutine, the ticker (which deposits ticks into
a capacity-one channel, dropping a tick when the buffer is full — the
documented `time.Ticker` semantics), and external callers of `Stop` / of the
cancel function of the context. Each label below is one atomic step of one of
these units.
-/

/-- Status of the immediate-execution goroutine. `noGoroutine`: none was
launched (either `executeImmediate` is false, or we model the loop only).
`launched`: the goroutine exists (`wg.Add(1)` already executed) but its body
has not begun running `executeFn`. `running`: `executeFn` is executing.
`done`: `wg.Done()` has executed. -/
inductive ImmStatus
  | noGoroutine
  | launched
  | running
  | done
deriving DecidableEq, Repr

/-- The immediate goroutine holds no wait-group token (it never existed or
has finished). -/
def ImmStatus.idle : ImmStatus → Bool
  | .noGoroutine => true
  | .done => true
  | _ => false

/-- Position of the own thread of control of the `Start` loop.
`selecting`: blocked at the three-way `select`.
`inTick`: executing `executeFn` synchronously after a tick.
`waitingNil` / `waitingErr`: took the stop / context branch and is inside
`wg.Wait()` before returning `nil` / `ctx.Err()`.
`returnedNil` / `returnedErr`: `Start` has returned `nil` / `ctx.Err()`. -/
inductive LoopStatus
  | selecting
  | inTick
  | waitingNil
  | waitingErr
  | returnedNil
  | returnedErr
deriving DecidableEq, Repr

/-- Global state of the `Start` execution of one job. `pendingTicks` is the
occupancy of the capacity-one ticker channel; `tickCount` is a ghost
cumulative count of tick-triggered invocations started; `stopRequested`
records that `stopCh` is closed; `ctxCancelled` that the context is done. -/
structure St where
  imm : ImmStatus
  loop : LoopStatus
  pendingTicks : Nat
  tickCount : Nat
  stopRequested : Bool
  ctxCancelled : Bool
deriving DecidableEq, Repr

/-- State at the top of `Start`, just after the `executeImmediate` branch:
when the flag is set the immediate goroutine has been launched
(`wg.Add(1)` done), the ticker is armed and empty, nothing has fired. -/
def initSt (executeImmediate : Bool) : St :=
  { imm := if executeImmediate then .launched else .noGoroutine
    loop := .selecting
    pendingTicks := 0
    tickCount := 0
    stopRequested := false
    ctxCancelled := false }

/-- Atomic events of the system: scheduler-chosen steps of the goroutine, the
loop, the ticker and the external world. -/
inductive Label
  | immBegin     -- the immediate goroutine starts executing executeFn
  | immEnd       -- the immediate goroutine finishes (wg.Done())
  | tickerFire   -- the interval elapses; ticker puts a tick in its channel
  | selectTick   -- select takes <-ticker.C; loop begins executeFn in-line
  | tickEnd      -- the in-line executeFn returns; loop resumes selecting
  | selectStop   -- select takes <-stopCh (requires the channel closed)
  | selectCtx    -- select takes <-ctx.Done()
  | retire       -- wg.Wait() completes and Start returns
  | reqStop      -- an external Stop call closes stopCh (idempotent)
  | cancelCtx    -- the caller cancels the context
deriving DecidableEq, Repr

/-- One atomic step. `none` means the label is not enabled in this state.
Each case mirrors the corresponding line of `Start` / its environment:
tick execution is in-line in the loop (no goroutine), the ticker channel has
capacity one and drops overflow, the stop and context branches first
`wg.Wait()` (enabled only when the immediate goroutine holds no token) and
then return. -/
def step (s : St) : Label → Option St
  | .immBegin =>
    if s.imm = .launched then some { s with imm := .running } else none
  | .immEnd =>
    if s.imm = .running then some { s with imm := .done } else none
  | .tickerFire =>
    some { s with pendingTicks := if s.pendingTicks = 0 then 1 else s.pendingTicks }
  | .selectTick =>
    if s.loop = .selecting ∧ s.pendingTicks ≠ 0 then
      some { s with loop := .inTick, pendingTicks := s.pendingTicks - 1,
                    tickCount := s.tickCount + 1 }
    else none
  | .tickEnd =>
    if s.loop = .inTick then some { s with loop := .selecting } else none
  | .selectStop =>
    if s.loop = .selecting ∧ s.stopRequested then
      some { s with loop := .waitingNil }
    else none
  | .selectCtx =>
    if s.loop = .selecting ∧ s.ctxCancelled then
      some { s with loop := .waitingErr }
    else none
  | .retire =>
    match s.loop with
    | .waitingNil => if s.imm.idle then some { s with loop := .returnedNil } else none
    | .waitingErr => if s.imm.idle then some { s with loop := .returnedErr } else none
    | _ => none
  | .reqStop => some { s with stopRequested := true }
  | .cancelCtx => some { s with ctxCancelled := true }

/-- Execute a trace (one interleaving); fails if a label is not enabled. -/
def run (s : St) : List Label → Option St
  | [] => some s
  | l :: ls => (step s l).bind fun t => run t ls

/-- `Start` has returned in this state. -/
def returned (s : St) : Bool :=
  match s.loop with
  | .returnedNil => true
  | .returnedErr => true
  | _ => false

/-- The value `Start` returned, when it has: `some none` is a `nil` return,
`some (some e)` a non-nil error, `none` means `Start` is still running. -/
def retVal (s : St) : Option GoError :=
  match s.loop with
  | .returnedNil => some none
  | .returnedErr => some (some ctxCanceledErr)
  | _ => none

/-- Number of `executeFn` invocations executing at this instant: the
one of the immediate goroutine (if running) plus the in-line one of the loop
(if any). -/
def runningInvocations (s : St) : Nat :=
  (if s.imm = .running then 1 else 0) + (if s.loop = .inTick then 1 else 0)

/-- Value of the `sync.WaitGroup` counter: one token per launched-but-not-done
immediate goroutine, one per in-flight in-line tick execution. -/
def wgCount (s : St) : Nat :=
  (if s.imm = .launched ∨ s.imm = .running then 1 else 0) +
    (if s.loop = .inTick then 1 else 0)

/-- Invocations started so far: the immediate one (launched at start time)
plus every tick-triggered one. -/
def invocationsStarted (s : St) : Nat :=
  (if s.imm = .noGoroutine then 0 else 1) + s.tickCount

/-- Occurrences of a label in a trace. -/
def countLabel (x : Label) : List Label → Nat
  | [] => 0
  | l :: ls => (if l = x then 1 else 0) + countLabel x ls

/-- Indicator: the loop is inside a tick-triggered invocation. -/
def tickInd (s : St) : Nat := if s.loop = .inTick then 1 else 0

/-- The loop has taken the stop branch (`case <-j.stopCh`): it will return
`nil` and nothing can divert it. -/
def onStopPath : LoopStatus → Bool
  | .waitingNil => true
  | .returnedNil => true
  | _ => false

/-- The loop has taken the context branch (`case <-ctx.Done()`): it will
return `ctx.Err()` and nothing can divert it. -/
def onCtxPath : LoopStatus → Bool
  | .waitingErr => true
  | .returnedErr => true
  | _ => false

/-- Inductive invariant of the system started as `initSt b`: a returned
`Start` holds no wait-group token; the immediate goroutine exists exactly
when `executeImmediate` was set; the stop branch is taken only once `stopCh`
is closed, the context branch only once the context is cancelled; the ticker
channel never buffers more than one tick. -/
def Inv (b : Bool) (s : St) : Prop :=
  (returned s = true → s.imm.idle = true) ∧
  (s.imm = .noGoroutine ↔ b = false) ∧
  (onStopPath s.loop = true → s.stopRequested = true) ∧
  (onCtxPath s.loop = true → s.ctxCancelled = true) ∧
  s.pendingTicks ≤ 1

/-- Guard of the Go standard-library `time.NewTicker`, which `Start` calls
to arm the interval timer: it panics (modelled as `Except.error`) when the
duration is not positive, with exactly this message. -/
def newTicker (d : Int) : Except String Unit :=
  if d ≤ 0 then .error "non-positive interval for NewTicker" else .ok ()

/-- The straight-line prefix of `Start` up to arming the ticker: the
immediate-execution goroutine is launched first when configured, then
`time.NewTicker(j.interval)` runs. The first component records whether the
goroutine had been launched by the time the ticker is armed (or the arming
panics). -/
def startPrelude (j : TickerJob α) : Bool × Except String Unit :=
  (j.executeImmediate, newTicker j.interval)

/-- Stand-in for values of the `transport.Server` interface held by the
registry. -/
structure TransportServer where
  id : Nat
deriving DecidableEq, Repr

/-- The job `Registry` of the source: a struct with no fields, so it holds
no jobs. -/
structure Registry where
deriving DecidableEq, Repr

/-- `Registry.Servers`: returns all jobs as a `transport.Server` slice — in
the source, the literal empty slice; a pure accessor with no scheduling
effect. -/
def Registry.Servers (r : Registry) : List TransportServer := []

/-! ## Generic lemmas about steps and traces -/

/-- Exhaustive characterisation of a successful step: which label fired,
under which guard, and the successor state. -/
theorem step_eq {s : St} {l : Label} {t : St} (h : step s l = some t) :
    (l = .immBegin ∧ s.imm = .launched ∧ t = { s with imm := .running }) ∨
    (l = .immEnd ∧ s.imm = .running ∧ t = { s with imm := .done }) ∨
    (l = .tickerFire ∧
      t = { s with pendingTicks := if s.pendingTicks = 0 then 1 else s.pendingTicks }) ∨
    (l = .selectTick ∧ s.loop = .selecting ∧ s.pendingTicks ≠ 0 ∧
      t = { s with loop := .inTick, pendingTicks := s.pendingTicks - 1,
                   tickCount := s.tickCount + 1 }) ∨
    (l = .tickEnd ∧ s.loop = .inTick ∧ t = { s with loop := .selecting }) ∨
    (l = .selectStop ∧ s.loop = .selecting ∧ s.stopRequested = true ∧
      t = { s with loop := .waitingNil }) ∨
    (l = .selectCtx ∧ s.loop = .selecting ∧ s.ctxCancelled = true ∧
      t = { s with loop := .waitingErr }) ∨
    (l = .retire ∧ s.loop = .waitingNil ∧ s.imm.idle = true ∧
      t = { s with loop := .returnedNil }) ∨
    (l = .retire ∧ s.loop = .waitingErr ∧ s.imm.idle = true ∧
      t = { s with loop := .returnedErr }) ∨
    (l = .reqStop ∧ t = { s with stopRequested := true }) ∨
    (l = .cancelCtx ∧ t = { s with ctxCancelled := true }) := by
  cases l <;> simp only [step] at h
  case immBegin =>
    split at h
    · exact Or.inl ⟨rfl, by assumption, (Option.some.inj h).symm⟩
    · exact Option.noConfusion h
  case immEnd =>
    split at h
    · exact Or.inr (Or.inl ⟨rfl, by assumption, (Option.some.inj h).symm⟩)
    · exact Option.noConfusion h
  case tickerFire =>
    exact Or.inr (Or.inr (Or.inl ⟨rfl, (Option.some.inj h).symm⟩))
  case selectTick =>
    split at h
    · rename_i hc
      exact Or.inr (Or.inr (Or.inr (Or.inl
        ⟨rfl, hc.1, hc.2, (Option.some.inj h).symm⟩)))
    · exact Option.noConfusion h
  case tickEnd =>
    split at h
    · exact Or.inr (Or.inr (Or.inr (Or.inr (Or.inl
        ⟨rfl, by assumption, (Option.some.inj h).symm⟩))))
    · exact Option.noConfusion h
  case selectStop =>
    split at h
    · rename_i hc
      exact Or.inr (Or.inr (Or.inr (Or.inr (Or.inr (Or.inl
        ⟨rfl, hc.1, hc.2, (Option.some.inj h).symm⟩)))))
    · exact Option.noConfusion h
  case selectCtx =>
    split at h
    · rename_i hc
      exact Or.inr (Or.inr (Or.inr (Or.inr (Or.inr (Or.inr (Or.inl
        ⟨rfl, hc.1, hc.2, (Option.some.inj h).symm⟩))))))
    · exact Option.noConfusion h
  case retire =>
    split at h
    · rename_i hl
      split at h
      · exact Or.inr (Or.inr (Or.inr (Or.inr (Or.inr (Or.inr (Or.inr (Or.inl
          ⟨rfl, hl, by assumption, (Option.some.inj h).symm⟩)))))))
      · exact Option.noConfusion h
    · rename_i hl
      split at h
      · exact Or.inr (Or.inr (Or.inr (Or.inr (Or.inr (Or.inr (Or.inr (Or.inr (Or.inl
          ⟨rfl, hl, by assumption, (Option.some.inj h).symm⟩))))))))
      · exact Option.noConfusion h
    · exact Option.noConfusion h
  case reqStop =>
    exact Or.inr (Or.inr (Or.inr (Or.inr (Or.inr (Or.inr (Or.inr (Or.inr (Or.inr (Or.inl
      ⟨rfl, (Option.some.inj h).symm⟩)))))))))
  case cancelCtx =>
    exact Or.inr (Or.inr (Or.inr (Or.inr (Or.inr (Or.inr (Or.inr (Or.inr (Or.inr (Or.inr
      ⟨rfl, (Option.some.inj h).symm⟩)))))))))

/-- Running an appended trace is running the two pieces in turn. -/
theorem run_append (tr1 tr2 : List Label) :
    ∀ s, run s (tr1 ++ tr2) = (run s tr1).bind fun m => run m tr2 := by
  induction tr1 with
  | nil => intro s; simp [run]
  | cons l ls ih =>
    intro s
    cases h : step s l <;> simp [run, h, ih]

/-- A step-closed predicate holds at the end of every valid trace. -/
theorem run_preserve {P : St → Prop}
    (hstep : ∀ s l t, P s → step s l = some t → P t) :
    ∀ tr s t, P s → run s tr = some t → P t := by
  intro tr
  induction tr with
  | nil =>
    intro s t hP hr
    simp only [run, Option.some.injEq] at hr
    exact hr ▸ hP
  | cons l ls ih =>
    intro s t hP hr
    simp only [run] at hr
    rcases Option.bind_eq_some.mp hr with ⟨m, hsl, hrest⟩
    exact ih m t (hstep s l m hP hsl) hrest

/-- Like `run_preserve`, but preservation is only needed for the labels that
actually occur in the trace. -/
theorem run_preserve_mem {P : St → Prop} :
    ∀ tr : List Label,
      (∀ l ∈ tr, ∀ s t, P s → step s l = some t → P t) →
      ∀ s t, P s → run s tr = some t → P t := by
  intro tr
  induction tr with
  | nil =>
    intro _ s t hP hr
    simp only [run, Option.some.injEq] at hr
    exact hr ▸ hP
  | cons l ls ih =>
    intro hmem s t hP hr
    simp only [run] at hr
    rcases Option.bind_eq_some.mp hr with ⟨m, hsl, hrest⟩
    exact ih (fun x hx => hmem x (List.mem_cons_of_mem l hx)) m t
      (hmem l (List.mem_cons_self l ls) s m hP hsl) hrest

/-- The invariant holds in the initial state. -/
theorem Inv_init (b : Bool) : Inv b (initSt b) := by
  cases b <;>
    simp [Inv, initSt, returned, onStopPath, onCtxPath, ImmStatus.idle]

/-- The invariant is preserved by every step. -/
theorem Inv_step {b : Bool} : ∀ s l t, Inv b s → step s l = some t → Inv b t := by
  intro s l t hInv h
  obtain ⟨h1, h2, h3, h4, h5⟩ := hInv
  rcases step_eq h with
      ⟨hl, hg, rfl⟩ | ⟨hl, hg, rfl⟩ | ⟨hl, rfl⟩ | ⟨hl, hg, hg2, rfl⟩
    | ⟨hl, hg, rfl⟩ | ⟨hl, hg, hg2, rfl⟩ | ⟨hl, hg, hg2, rfl⟩ | ⟨hl, hg, hg2, rfl⟩
    | ⟨hl, hg, hg2, rfl⟩ | ⟨hl, rfl⟩ | ⟨hl, rfl⟩ <;>
    refine ⟨?_, ?_, ?_, ?_, ?_⟩ <;>
    first
      | (simp_all [returned, onStopPath, onCtxPath, ImmStatus.idle]; done)
      | (dsimp only; split <;> omega)

/-- The invariant holds at the end of every trace from the initial state. -/
theorem Inv_run {b : Bool} :
    ∀ tr s, run (initSt b) tr = some s → Inv b s :=
  fun tr s h => run_preserve (fun s2 l t => Inv_step s2 l t) tr (initSt b) s (Inv_init b) h

/-- Each step changes the begun/finished balance of tick-triggered
invocations exactly as the `inTick` indicator does. -/
theorem step_tick_balance {s : St} {l : Label} {t : St} (h : step s l = some t) :
    tickInd t + (if l = Label.tickEnd then 1 else 0)
      = tickInd s + (if l = Label.selectTick then 1 else 0) := by
  rcases step_eq h with
      ⟨hl, hg, rfl⟩ | ⟨hl, hg, rfl⟩ | ⟨hl, rfl⟩ | ⟨hl, hg, hg2, rfl⟩
    | ⟨hl, hg, rfl⟩ | ⟨hl, hg, hg2, rfl⟩ | ⟨hl, hg, hg2, rfl⟩ | ⟨hl, hg, hg2, rfl⟩
    | ⟨hl, hg, hg2, rfl⟩ | ⟨hl, rfl⟩ | ⟨hl, rfl⟩ <;>
    subst hl <;> simp_all [tickInd]

/-- Along any valid trace, begun tick invocations minus finished ones equals
the change of the `inTick` indicator. -/
theorem run_tick_balance :
    ∀ tr s t, run s tr = some t →
      tickInd t + countLabel Label.tickEnd tr
        = tickInd s + countLabel Label.selectTick tr := by
  intro tr
  induction tr with
  | nil =>
    intro s t h
    simp only [run, Option.some.injEq] at h
    subst h
    simp [countLabel]
  | cons l ls ih =>
    intro s t h
    simp only [run] at h
    rcases Option.bind_eq_some.mp h with ⟨m, hsl, hrest⟩
    have hb := step_tick_balance hsl
    have hr := ih m t hrest
    simp only [countLabel]
    omega

/-- Each step keeps started-invocations-plus-buffered-ticks bounded by the
timer fires it adds (a fire is dropped when the buffer already holds one). -/
theorem step_fire_bound {s : St} {l : Label} {t : St} (h : step s l = some t) :
    t.tickCount + t.pendingTicks
      ≤ s.tickCount + s.pendingTicks + (if l = Label.tickerFire then 1 else 0) := by
  rcases step_eq h with
      ⟨hl, hg, rfl⟩ | ⟨hl, hg, rfl⟩ | ⟨hl, rfl⟩ | ⟨hl, hg, hg2, rfl⟩
    | ⟨hl, hg, rfl⟩ | ⟨hl, hg, hg2, rfl⟩ | ⟨hl, hg, hg2, rfl⟩ | ⟨hl, hg, hg2, rfl⟩
    | ⟨hl, hg, hg2, rfl⟩ | ⟨hl, rfl⟩ | ⟨hl, rfl⟩ <;>
    subst hl <;> dsimp only <;> simp <;> first | omega | (split <;> omega)

/-- Along any valid trace, tick invocations started plus ticks still buffered
never exceed the timer fires that occurred. -/
theorem run_fire_bound :
    ∀ tr s t, run s tr = some t →
      t.tickCount + t.pendingTicks
        ≤ s.tickCount + s.pendingTicks + countLabel Label.tickerFire tr := by
  intro tr
  induction tr with
  | nil =>
    intro s t h
    simp only [run, Option.some.injEq] at h
    subst h
    simp [countLabel]
  | cons l ls ih =>
    intro s t h
    simp only [run] at h
    rcases Option.bind_eq_some.mp h with ⟨m, hsl, hrest⟩
    have hb := step_fire_bound hsl
    have hr := ih m t hrest
    simp only [countLabel]
    omega

/-- From any state in which stop has been requested or the context has been
cancelled, the system can reach a returned state in at most five steps:
finish the in-line invocation if one is running, take the stop or context
branch, let the immediate goroutine finish, and return. -/
theorem can_return (s : St)
    (h : s.stopRequested = true ∨ s.ctxCancelled = true) :
    ∃ tr t, run s tr = some t ∧ returned t = true ∧ tr.length ≤ 5 := by
  obtain ⟨imm, loop, p, tc, sr, cc⟩ := s
  rcases h with h | h <;> subst h <;> cases imm <;> cases loop <;>
    first
      | exact ⟨[], _, rfl, rfl, by decide⟩
      | exact ⟨[.retire], _, rfl, rfl, by decide⟩
      | exact ⟨[.immEnd, .retire], _, rfl, rfl, by decide⟩
      | exact ⟨[.immBegin, .immEnd, .retire], _, rfl, rfl, by decide⟩
      | exact ⟨[.selectStop, .retire], _, rfl, rfl, by decide⟩
      | exact ⟨[.selectStop, .immEnd, .retire], _, rfl, rfl, by decide⟩
      | exact ⟨[.selectStop, .immBegin, .immEnd, .retire], _, rfl, rfl, by decide⟩
      | exact ⟨[.tickEnd, .selectStop, .retire], _, rfl, rfl, by decide⟩
      | exact ⟨[.tickEnd, .selectStop, .immEnd, .retire], _, rfl, rfl, by decide⟩
      | exact ⟨[.tickEnd, .selectStop, .immBegin, .immEnd, .retire], _, rfl, rfl,
          by decide⟩
      | exact ⟨[.selectCtx, .retire], _, rfl, rfl, by decide⟩
      | exact ⟨[.selectCtx, .immEnd, .retire], _, rfl, rfl, by decide⟩
      | exact ⟨[.selectCtx, .immBegin, .immEnd, .retire], _, rfl, rfl, by decide⟩
      | exact ⟨[.tickEnd, .selectCtx, .retire], _, rfl, rfl, by decide⟩
      | exact ⟨[.tickEnd, .selectCtx, .immEnd, .retire], _, rfl, rfl, by decide⟩
      | exact ⟨[.tickEnd, .selectCtx, .immBegin, .immEnd, .retire], _, rfl, rfl,
          by decide⟩

/-- A loop-status predicate that every non-`lab` step preserves and that the
`lab` step establishes stays true along any trace. -/
theorem run_path_stays {W : LoopStatus → Bool} {lab : Label}
    (hpres : ∀ s l t, step s l = some t → l ≠ lab → W t.loop = W s.loop)
    (henter : ∀ s t, step s lab = some t → W t.loop = true) :
    ∀ tr s t, W s.loop = true → run s tr = some t → W t.loop = true :=
  run_preserve (fun s l t hP h => by
    by_cases hl : l = lab
    · subst hl; exact henter _ _ h
    · rw [hpres _ _ _ h hl]; exact hP)

/-- Starting off the path, the path is reached exactly when the entering
label occurs in the trace. -/
theorem run_path_iff {W : LoopStatus → Bool} {lab : Label}
    (hpres : ∀ s l t, step s l = some t → l ≠ lab → W t.loop = W s.loop)
    (henter : ∀ s t, step s lab = some t → W t.loop = true) :
    ∀ tr s t, run s tr = some t → W s.loop = false →
      (W t.loop = true ↔ lab ∈ tr) := by
  intro tr
  induction tr with
  | nil =>
    intro s t h h0
    simp only [run, Option.some.injEq] at h
    subst h
    simp [h0]
  | cons l ls ih =>
    intro s t h h0
    simp only [run] at h
    rcases Option.bind_eq_some.mp h with ⟨m, hsl, hrest⟩
    by_cases hl : l = lab
    · subst hl
      have ht : W t.loop = true :=
        run_path_stays hpres henter ls m t (henter _ _ hsl) hrest
      simp [ht]
    · have hm : W m.loop = W s.loop := hpres _ _ _ hsl hl
      have hiff := ih m t hrest (hm.trans h0)
      simp only [List.mem_cons, hiff]
      constructor
      · intro hmem; exact Or.inr hmem
      · rintro (hmem | hmem)
        · exact absurd hmem.symm hl
        · exact hmem

/-- Labels other than `selectStop` never move the loop onto or off the
stop-return path. -/
theorem stopPath_pres :
    ∀ s l t, step s l = some t → l ≠ Label.selectStop →
      onStopPath t.loop = onStopPath s.loop := by
  intro s l t h hne
  rcases step_eq h with
      ⟨hl, hg, rfl⟩ | ⟨hl, hg, rfl⟩ | ⟨hl, rfl⟩ | ⟨hl, hg, hg2, rfl⟩
    | ⟨hl, hg, rfl⟩ | ⟨hl, hg, hg2, rfl⟩ | ⟨hl, hg, hg2, rfl⟩ | ⟨hl, hg, hg2, rfl⟩
    | ⟨hl, hg, hg2, rfl⟩ | ⟨hl, rfl⟩ | ⟨hl, rfl⟩ <;>
    simp_all [onStopPath]

/-- The `selectStop` step puts the loop on the stop-return path. -/
theorem stopPath_enter :
    ∀ s t, step s Label.selectStop = some t → onStopPath t.loop = true := by
  intro s t h
  rcases step_eq h with
      ⟨hl, hg, rfl⟩ | ⟨hl, hg, rfl⟩ | ⟨hl, rfl⟩ | ⟨hl, hg, hg2, rfl⟩
    | ⟨hl, hg, rfl⟩ | ⟨hl, hg, hg2, rfl⟩ | ⟨hl, hg, hg2, rfl⟩ | ⟨hl, hg, hg2, rfl⟩
    | ⟨hl, hg, hg2, rfl⟩ | ⟨hl, rfl⟩ | ⟨hl, rfl⟩ <;>
    simp_all [onStopPath]

/-- Labels other than `selectCtx` never move the loop onto or off the
context-return path. -/
theorem ctxPath_pres :
    ∀ s l t, step s l = some t → l ≠ Label.selectCtx →
      onCtxPath t.loop = onCtxPath s.loop := by
  intro s l t h hne
  rcases step_eq h with
      ⟨hl, hg, rfl⟩ | ⟨hl, hg, rfl⟩ | ⟨hl, rfl⟩ | ⟨hl, hg, hg2, rfl⟩
    | ⟨hl, hg, rfl⟩ | ⟨hl, hg, hg2, rfl⟩ | ⟨hl, hg, hg2, rfl⟩ | ⟨hl, hg, hg2, rfl⟩
    | ⟨hl, hg, hg2, rfl⟩ | ⟨hl, rfl⟩ | ⟨hl, rfl⟩ <;>
    simp_all [onCtxPath]

/-- The `selectCtx` step puts the loop on the context-return path. -/
theorem ctxPath_enter :
    ∀ s t, step s Label.selectCtx = some t → onCtxPath t.loop = true := by
  intro s t h
  rcases step_eq h with
      ⟨hl, hg, rfl⟩ | ⟨hl, hg, rfl⟩ | ⟨hl, rfl⟩ | ⟨hl, hg, hg2, rfl⟩
    | ⟨hl, hg, rfl⟩ | ⟨hl, hg, hg2, rfl⟩ | ⟨hl, hg, hg2, rfl⟩ | ⟨hl, hg, hg2, rfl⟩
    | ⟨hl, hg, hg2, rfl⟩ | ⟨hl, rfl⟩ | ⟨hl, rfl⟩ <;>
    simp_all [onCtxPath]

/-- Repeated external `reqStop` steps only set the stop flag; calls past the
first have no further effect on the state. -/
theorem run_replicate_reqStop :
    ∀ (n : Nat) (s : St),
      run s (List.replicate (n + 1) Label.reqStop)
        = some { s with stopRequested := true } := by
  intro n
  induction n with
  | zero => intro s; rfl
  | succ k ih =>
    intro s
    have hsplit : List.replicate (k + 1 + 1) Label.reqStop
        = Label.reqStop :: List.replicate (k + 1) Label.reqStop := rfl
    rw [hsplit]
    simp only [run, step, Option.some_bind]
    exact ih { s with stopRequested := true }

/-- After the `sync.Once` body has run once, every further `Stop` call is a
pure no-op returning `nil`. -/
theorem stopCalls_done (α : Type) :
    ∀ (n : Nat) (j : TickerJob α), j.stopOnceDone = true →
      stopCalls α n j = .ok (j, List.replicate n none) := by
  intro n
  induction n with
  | zero => intro j hj; rfl
  | succ k ih =>
    intro j hj
    simp only [stopCalls, TickerJob.Stop, hj, if_true, ih j hj, List.replicate_succ]

/-- In any invariant-satisfying returned state, the wait-group is empty and
no invocation of `executeFn` is still executing. -/
theorem wg_zero_of_returned {b : Bool} {s : St} (hInv : Inv b s)
    (hr : returned s = true) : wgCount s = 0 ∧ runningInvocations s = 0 := by
  obtain ⟨h1, -, -, -, -⟩ := hInv
  have hidle := h1 hr
  obtain ⟨imm, loop, p, tc, sr, cc⟩ := s
  cases imm <;> cases loop <;>
    simp_all [wgCount, runningInvocations, returned, ImmStatus.idle]

/-- The first `Stop` call on a fresh job closes the channel (one actual
close) and marks the once-guard, returning a `nil` error. -/
theorem Stop_fresh (α : Type) (name : String) (interval : Int)
    (fn : Option α) (b : Bool) :
    (newTickerJob α name interval fn b).Stop
      = .ok (⟨name, interval, ⟨true, 1⟩, true, b, fn⟩, none) := rfl

/-! ## Claim theorems -/

/-- C1: in every execution of `Start` (any trace of the transition system),
once `Stop` has been requested or the context is cancelled, `Start` can
complete its return within five further steps (each remaining step is always
enabled, so under any fair scheduler it eventually returns), and `Start`
never returns early: in any returned state — including the one reached —
the wait-group count is zero and no `executeFn` invocation (immediate
goroutine or tick-triggered) is still executing. -/
theorem start_joins_before_returning (b : Bool) (tr : List Label) (s : St)
    (hrun : run (initSt b) tr = some s)
    (htrig : s.stopRequested = true ∨ s.ctxCancelled = true) :
    (returned s = true → wgCount s = 0 ∧ runningInvocations s = 0) ∧
    ∃ tr2 t, run s tr2 = some t ∧ returned t = true ∧ tr2.length ≤ 5 ∧
      wgCount t = 0 ∧ runningInvocations t = 0 := by
  constructor
  · intro hr
    exact wg_zero_of_returned (Inv_run tr s hrun) hr
  · obtain ⟨tr2, t, hrun2, hret, hlen⟩ := can_return s htrig
    have hfull : run (initSt b) (tr ++ tr2) = some t := by
      rw [run_append, hrun, Option.some_bind, hrun2]
    obtain ⟨hwg, hinv⟩ := wg_zero_of_returned (Inv_run (tr ++ tr2) t hfull) hret
    exact ⟨tr2, t, hrun2, hret, hlen, hwg, hinv⟩

/-- Witness for C1 at a concrete trace: stop requested, the immediate
goroutine runs to completion, the loop takes the stop branch and returns. -/
theorem start_joins_before_returning_witness :
    (returned (⟨ImmStatus.done, LoopStatus.returnedNil, 0, 0, true, false⟩ : St)
        = true →
      wgCount (⟨ImmStatus.done, LoopStatus.returnedNil, 0, 0, true, false⟩ : St)
          = 0 ∧
      runningInvocations
          (⟨ImmStatus.done, LoopStatus.returnedNil, 0, 0, true, false⟩ : St)
        = 0) ∧
    ∃ tr2 t,
      run (⟨ImmStatus.done, LoopStatus.returnedNil, 0, 0, true, false⟩ : St) tr2
          = some t ∧
      returned t = true ∧ tr2.length ≤ 5 ∧ wgCount t = 0 ∧
      runningInvocations t = 0 :=
  start_joins_before_returning true
    [Label.reqStop, Label.immBegin, Label.immEnd, Label.selectStop, Label.retire]
    ⟨ImmStatus.done, LoopStatus.returnedNil, 0, 0, true, false⟩
    (by decide) (Or.inl rfl)

/-- C2 is false on the code: with `executeImmediately = true` the immediate
goroutine runs `executeFn` concurrently with the loop, so it can still be
executing when a tick triggers the in-line invocation — after the trace
immBegin, tickerFire, selectTick from the initial state two invocations of
the same job execute at the same instant. -/
theorem overlap_counterexample :
    ¬ (∀ (tr : List Label) (s : St), run (initSt true) tr = some s →
        runningInvocations s ≤ 1) := by
  intro hclaim
  have h := hclaim [Label.immBegin, Label.tickerFire, Label.selectTick]
    ⟨ImmStatus.running, LoopStatus.inTick, 0, 1, false, false⟩ (by decide)
  exact absurd h (by decide)

/-- C2 amended: with `executeImmediately = false` at most one invocation of
`executeFn` executes at any instant; with either flag value no two
tick-triggered invocations ever overlap (begun tick invocations never exceed
finished ones by more than one at any prefix of any execution) — only the
immediate goroutine may overlap a tick-triggered invocation. -/
theorem no_overlap_amended (b : Bool) (tr : List Label) (s : St)
    (hrun : run (initSt b) tr = some s) :
    (b = false → runningInvocations s ≤ 1) ∧
    countLabel Label.selectTick tr ≤ countLabel Label.tickEnd tr + 1 := by
  constructor
  · intro hb
    obtain ⟨-, h2, -, -, -⟩ := Inv_run tr s hrun
    have himm : s.imm = ImmStatus.noGoroutine := h2.mpr hb
    unfold runningInvocations
    rw [himm]
    simp only [if_neg (by simp : ¬ (ImmStatus.noGoroutine = ImmStatus.running))]
    split <;> omega
  · have hb := run_tick_balance tr (initSt b) s hrun
    have h0 : tickInd (initSt b) = 0 := by cases b <;> rfl
    have h1 : tickInd s ≤ 1 := by unfold tickInd; split <;> omega
    omega

/-- Witness for the amended C2 at a concrete non-immediate trace with one
completed tick invocation. -/
theorem no_overlap_amended_witness :
    ((false : Bool) = false →
      runningInvocations
          (⟨ImmStatus.noGoroutine, LoopStatus.selecting, 0, 1, false, false⟩ : St)
        ≤ 1) ∧
    countLabel Label.selectTick [Label.tickerFire, Label.selectTick, Label.tickEnd]
      ≤ countLabel Label.tickEnd [Label.tickerFire, Label.selectTick, Label.tickEnd]
        + 1 :=
  no_overlap_amended false [Label.tickerFire, Label.selectTick, Label.tickEnd]
    ⟨ImmStatus.noGoroutine, LoopStatus.selecting, 0, 1, false, false⟩ (by decide)

/-- C6: tick-triggered invocations run in-line on the own thread of control
of the scheduling loop, so in every execution the tick invocations begun
never exceed those finished by more than one (two periodic invocations never
run concurrently); moreover tick invocations started plus ticks still
buffered never exceed the timer fires that occurred, and at most one tick is
ever buffered — a missed tick is dropped, never queued or replayed. -/
theorem tick_invocations_serialized (b : Bool) (tr : List Label) (s : St)
    (hrun : run (initSt b) tr = some s) :
    countLabel Label.selectTick tr ≤ countLabel Label.tickEnd tr + 1 ∧
    s.tickCount + s.pendingTicks ≤ countLabel Label.tickerFire tr ∧
    s.pendingTicks ≤ 1 := by
  refine ⟨?_, ?_, ?_⟩
  · have hb := run_tick_balance tr (initSt b) s hrun
    have h0 : tickInd (initSt b) = 0 := by cases b <;> rfl
    have h1 : tickInd s ≤ 1 := by unfold tickInd; split <;> omega
    omega
  · have hb := run_fire_bound tr (initSt b) s hrun
    have h0 : (initSt b).tickCount = 0 := by cases b <;> rfl
    have h1 : (initSt b).pendingTicks = 0 := by cases b <;> rfl
    omega
  · exact (Inv_run tr s hrun).2.2.2.2

/-- Witness for C6: two timer fires with a slow in-line execution — the
second fire is buffered, a third would be dropped; counts stay within the
proved bounds. -/
theorem tick_invocations_serialized_witness :
    countLabel Label.selectTick
        [Label.tickerFire, Label.selectTick, Label.tickerFire, Label.tickerFire]
      ≤ countLabel Label.tickEnd
          [Label.tickerFire, Label.selectTick, Label.tickerFire, Label.tickerFire]
        + 1 ∧
    (⟨ImmStatus.noGoroutine, LoopStatus.inTick, 1, 1, false, false⟩ : St).tickCount
        + (⟨ImmStatus.noGoroutine, LoopStatus.inTick, 1, 1, false, false⟩
            : St).pendingTicks
      ≤ countLabel Label.tickerFire
          [Label.tickerFire, Label.selectTick, Label.tickerFire, Label.tickerFire] ∧
    (⟨ImmStatus.noGoroutine, LoopStatus.inTick, 1, 1, false, false⟩
        : St).pendingTicks ≤ 1 :=
  tick_invocations_serialized false
    [Label.tickerFire, Label.selectTick, Label.tickerFire, Label.tickerFire]
    ⟨ImmStatus.noGoroutine, LoopStatus.inTick, 1, 1, false, false⟩ (by decide)

/-- C3: the return value of `Start` discriminates the termination cause: in
every execution ending returned, `Start` returned `nil` exactly when the
stop branch of the select triggered termination (which requires the stop
signal), it returned the context cancellation error exactly when the context
branch triggered termination (which requires the context to be cancelled),
and no other value is ever returned. -/
theorem start_return_discriminates (b : Bool) (tr : List Label) (s : St)
    (hrun : run (initSt b) tr = some s) (hret : returned s = true) :
    (retVal s = some none ↔ Label.selectStop ∈ tr) ∧
    (retVal s = some (some ctxCanceledErr) ↔ Label.selectCtx ∈ tr) ∧
    (retVal s = some none → s.stopRequested = true) ∧
    (retVal s = some (some ctxCanceledErr) → s.ctxCancelled = true) ∧
    (∀ e, retVal s = some e → e = none ∨ e = some ctxCanceledErr) := by
  have hstop := run_path_iff stopPath_pres stopPath_enter tr (initSt b) s hrun rfl
  have hctx := run_path_iff ctxPath_pres ctxPath_enter tr (initSt b) s hrun rfl
  obtain ⟨-, -, h3, h4, -⟩ := Inv_run tr s hrun
  obtain ⟨imm, loop, p, tc, sr, cc⟩ := s
  cases loop <;>
    simp_all [returned, retVal, onStopPath, onCtxPath]

/-- Witness for C3 at a concrete stop-terminated execution. -/
theorem start_return_discriminates_witness :
    (retVal (⟨ImmStatus.noGoroutine, LoopStatus.returnedNil, 0, 0, true, false⟩
          : St) = some none
        ↔ Label.selectStop ∈ [Label.reqStop, Label.selectStop, Label.retire]) ∧
    (retVal (⟨ImmStatus.noGoroutine, LoopStatus.returnedNil, 0, 0, true, false⟩
          : St) = some (some ctxCanceledErr)
        ↔ Label.selectCtx ∈ [Label.reqStop, Label.selectStop, Label.retire]) ∧
    (retVal (⟨ImmStatus.noGoroutine, LoopStatus.returnedNil, 0, 0, true, false⟩
          : St) = some none →
      (⟨ImmStatus.noGoroutine, LoopStatus.returnedNil, 0, 0, true, false⟩
          : St).stopRequested = true) ∧
    (retVal (⟨ImmStatus.noGoroutine, LoopStatus.returnedNil, 0, 0, true, false⟩
          : St) = some (some ctxCanceledErr) →
      (⟨ImmStatus.noGoroutine, LoopStatus.returnedNil, 0, 0, true, false⟩
          : St).ctxCancelled = true) ∧
    (∀ e, retVal (⟨ImmStatus.noGoroutine, LoopStatus.returnedNil, 0, 0, true,
          false⟩ : St) = some e → e = none ∨ e = some ctxCanceledErr) :=
  start_return_discriminates false [Label.reqStop, Label.selectStop, Label.retire]
    ⟨ImmStatus.noGoroutine, LoopStatus.returnedNil, 0, 0, true, false⟩
    (by decide) rfl

/-- C5: before the first interval elapse (no `tickerFire` in the trace) the
invocations triggered are exactly one — launched already at start time —
when `executeImmediately` is true, and exactly zero when it is false;
moreover the immediate execution consumes no interval: with the flag set the
very first timer fire still triggers a further, second invocation. -/
theorem executeImmediately_first_window :
    (∀ (b : Bool) (tr : List Label) (s : St),
      (∀ l ∈ tr, l ≠ Label.tickerFire) →
      run (initSt b) tr = some s →
      invocationsStarted s = if b then 1 else 0) ∧
    ∃ s, run (initSt true) [Label.tickerFire, Label.selectTick] = some s ∧
      invocationsStarted s = 2 ∧ s.tickCount = 1 := by
  constructor
  · intro b tr s hmem hrun
    have hP : s.pendingTicks = 0 ∧ s.tickCount = 0 := by
      refine run_preserve_mem
        (P := fun st => st.pendingTicks = 0 ∧ st.tickCount = 0)
        tr ?_ (initSt b) s ⟨?_, ?_⟩ hrun
      · intro l hl s2 t hP2 hstep
        have hlne : l ≠ Label.tickerFire := hmem l hl
        rcases step_eq hstep with
            ⟨hl2, hg, rfl⟩ | ⟨hl2, hg, rfl⟩ | ⟨hl2, rfl⟩ | ⟨hl2, hg, hg2, rfl⟩
          | ⟨hl2, hg, rfl⟩ | ⟨hl2, hg, hg2, rfl⟩ | ⟨hl2, hg, hg2, rfl⟩
          | ⟨hl2, hg, hg2, rfl⟩ | ⟨hl2, hg, hg2, rfl⟩ | ⟨hl2, rfl⟩ | ⟨hl2, rfl⟩ <;>
          simp_all
      · cases b <;> rfl
      · cases b <;> rfl
    obtain ⟨-, h2, -, -, -⟩ := Inv_run tr s hrun
    cases b with
    | false =>
      have himm := h2.mpr rfl
      simp [invocationsStarted, himm, hP.2]
    | true =>
      have himm : s.imm ≠ ImmStatus.noGoroutine := by
        intro hh
        simpa using h2.mp hh
      simp [invocationsStarted, himm, hP.2]
  · exact ⟨⟨ImmStatus.launched, LoopStatus.inTick, 0, 1, false, false⟩,
      by decide, by decide, rfl⟩

/-- Witness for C5 at a concrete trace without timer fires: the immediate
goroutine launched and ran, and still exactly one invocation was
triggered. -/
theorem executeImmediately_first_window_witness :
    invocationsStarted
        (⟨ImmStatus.done, LoopStatus.selecting, 0, 0, false, false⟩ : St)
      = if true then 1 else 0 :=
  executeImmediately_first_window.1 true [Label.immBegin, Label.immEnd]
    ⟨ImmStatus.done, LoopStatus.selecting, 0, 0, false, false⟩
    (by decide) (by decide)

/-- C7: any positive number of `Stop` calls before the loop makes any move
only sets the stop flag — the resulting state is the initial state with
`stopRequested` true, so repeated calls have no further effect — and from
there `Start` exits at its next wait point within four steps, returning
`nil`, with no tick-triggered invocation having run. -/
theorem stop_before_start_prompt_nil (b : Bool) (n : Nat) :
    run (initSt b) (List.replicate (n + 1) Label.reqStop)
        = some { initSt b with stopRequested := true } ∧
    ∃ tr t, run { initSt b with stopRequested := true } tr = some t ∧
      retVal t = some none ∧ t.tickCount = 0 ∧ tr.length ≤ 4 := by
  refine ⟨run_replicate_reqStop n (initSt b), ?_⟩
  cases b with
  | false => exact ⟨[Label.selectStop, Label.retire], _, rfl, rfl, rfl, by decide⟩
  | true =>
    exact ⟨[Label.selectStop, Label.immBegin, Label.immEnd, Label.retire], _,
      rfl, rfl, rfl, by decide⟩

/-- C4: from a fresh job, any number of `Stop` calls — `sync.Once`
serialises the guarded body, so concurrent callers reduce to this sequential
iteration — never panics: the iteration produces `ok`, every single call
returns the `nil` error, the underlying channel is closed by the first call
with the close operation executing exactly once, and calls after the first
leave the job unchanged and stay infallible. -/
theorem stop_idempotent_infallible (α : Type) (name : String) (interval : Int)
    (fn : Option α) (b : Bool) (n : Nat) :
    ∃ j errs,
      stopCalls α n (newTickerJob α name interval fn b) = .ok (j, errs) ∧
      errs = List.replicate n none ∧
      (n = 0 → j = newTickerJob α name interval fn b) ∧
      (1 ≤ n → j.stopCh.closed = true ∧ j.stopCh.closeCount = 1 ∧
        j.stopOnceDone = true ∧
        ∀ k, stopCalls α k j = .ok (j, List.replicate k none)) := by
  cases n with
  | zero =>
    exact ⟨newTickerJob α name interval fn b, [], rfl, rfl, fun _ => rfl,
      fun hk => absurd hk (by omega)⟩
  | succ m =>
    have h1 : stopCalls α m (⟨name, interval, ⟨true, 1⟩, true, b, fn⟩ : TickerJob α)
        = .ok (⟨name, interval, ⟨true, 1⟩, true, b, fn⟩, List.replicate m none) :=
      stopCalls_done α m _ rfl
    refine ⟨⟨name, interval, ⟨true, 1⟩, true, b, fn⟩,
      List.replicate (m + 1) none, ?_, rfl, ?_, ?_⟩
    · simp only [stopCalls, Stop_fresh α name interval fn b, h1,
        List.replicate_succ]
    · intro h0
      exact absurd h0 (by omega)
    · intro hk
      exact ⟨rfl, rfl, rfl, fun k => stopCalls_done α k _ rfl⟩

/-- Witness for C4: three `Stop` calls on a concrete job. -/
theorem stop_idempotent_infallible_witness :
    ∃ j errs,
      stopCalls Unit 3 (newTickerJob Unit "w" 50 none false) = .ok (j, errs) ∧
      errs = List.replicate 3 none ∧
      (3 = 0 → j = newTickerJob Unit "w" 50 none false) ∧
      (1 ≤ 3 → j.stopCh.closed = true ∧ j.stopCh.closeCount = 1 ∧
        j.stopOnceDone = true ∧
        ∀ k, stopCalls Unit k j = .ok (j, List.replicate k none)) :=
  stop_idempotent_infallible Unit "w" 50 none false 3

/-- C8: `newTickerJob` enforces no validation: for every name, every
interval — zero and negative included — every action — `nil` included — and
either flag value, construction totally succeeds (the function returns a
job, there is no error path) and the job holds exactly the given parameters,
with a fresh open stop channel and the once-guard unused. -/
theorem newTickerJob_no_validation (α : Type) (name : String) (interval : Int)
    (fn : Option α) (b : Bool) :
    (newTickerJob α name interval fn b).name = name ∧
    (newTickerJob α name interval fn b).interval = interval ∧
    (newTickerJob α name interval fn b).executeFn = fn ∧
    (newTickerJob α name interval fn b).executeImmediate = b ∧
    (newTickerJob α name interval fn b).stopCh = StopCh.new ∧
    (newTickerJob α name interval fn b).stopOnceDone = false :=
  ⟨rfl, rfl, rfl, rfl, rfl, rfl⟩

/-- C9: with a non-positive interval, `Start` does not return an error — it
panics when arming the interval timer, because `time.NewTicker` rejects
non-positive durations, and by then the immediate-execution goroutine has
been launched exactly when `executeImmediately` is set; with a positive
interval the prelude is panic-free, so `interval > 0` is a precondition for
a panic-free `Start`. -/
theorem start_panics_nonpositive_interval (α : Type) (j : TickerJob α) :
    (j.interval ≤ 0 →
      startPrelude j
        = (j.executeImmediate, .error "non-positive interval for NewTicker")) ∧
    (0 < j.interval → startPrelude j = (j.executeImmediate, .ok ())) := by
  constructor
  · intro h
    simp [startPrelude, newTicker, h]
  · intro h
    simp [startPrelude, newTicker, not_le.mpr h]

/-- Witness for C9: a zero interval panics after launching the immediate
goroutine; a positive one does not. -/
theorem start_panics_nonpositive_interval_witness :
    startPrelude (newTickerJob Unit "w" 0 none true)
        = (true, .error "non-positive interval for NewTicker") ∧
    startPrelude (newTickerJob Unit "x" 7 none false) = (false, .ok ()) :=
  ⟨(start_panics_nonpositive_interval Unit (newTickerJob Unit "w" 0 none true)).1
      (by decide),
   (start_panics_nonpositive_interval Unit (newTickerJob Unit "x" 7 none false)).2
      (by decide)⟩

/-- C10: the single accessor `Servers` of the job registry returns exactly
the collection the registry holds, in order — the registry as defined holds
zero jobs, and every call returns the empty list; the accessor is a pure
function with no scheduling effect. -/
theorem registry_servers_empty (r : Registry) :
    Registry.Servers r = ([] : List TransportServer) ∧
    (Registry.Servers r).length = 0 :=
  ⟨rfl, rfl⟩

end KratosJob
